import Mathlib

/-!
Verification of the monocat release client: a shallow embedding of the
HTTP response-interpretation layer (`monocat/_http.py`), the GitHub API
transport and release client (`monocat/github.py`), and the release
manager / update action orchestration (`monocat/__init__.py`,
`monocat/actions.py`).

External collaborators (urllib3, the network, the file system, base64,
package metadata, pydantic response validation, JSON text decoding) are
modelled as explicit inputs: an HTTP exchange is embedded as a function
of the response the server produced, and fallible Python code returns
`Except`.  Machine-level regex matching is embedded as deterministic
matchers whose behaviour matches the Python `re` semantics of the two
fixed patterns in `_http.py` (greedy character classes with the
backtracking behaviour of those particular patterns resolved by hand);
the `\s` class is modelled by its ASCII members.
-/

namespace Monocat

/-! ## Python dictionary and string primitives -/

/-- Lookup in an association list with Python `dict` semantics: a later
binding of the same key overrides an earlier one (dict comprehensions and
`{**a, **b}` overlays both behave this way). -/
def pyGet {α : Type} : List (String × α) → String → Option α
  | [], _ => none
  | (k', v) :: t, k =>
    match pyGet t k with
    | some r => some r
    | none => if k' == k then some v else none

/-- The last element of a list satisfying a predicate (later elements
preferred).  Used as the specification-side reading of last-match-wins
lookups. -/
def lastThat {α : Type} (p : α → Bool) : List α → Option α
  | [] => none
  | a :: t =>
    match lastThat p t with
    | some r => some r
    | none => if p a then some a else none

/-- Python truthiness of an optional integer: `None` and `0` are falsy. -/
def pyTruthy : Option Int → Bool
  | none => false
  | some i => i != 0

/-- Python `str.strip(' "')` on a character list: drop characters from the
set {space, double quote} from both ends. -/
def stripSpaceQuote (l : List Char) : List Char :=
  ((l.dropWhile (fun c => c == ' ' || c == '"')).reverse.dropWhile
    (fun c => c == ' ' || c == '"')).reverse

/-- Split a character list on `/` separators. -/
def splitSlash : List Char → List (List Char)
  | [] => [[]]
  | c :: t =>
    if c = '/' then [] :: splitSlash t
    else
      match splitSlash t with
      | h :: r => (c :: h) :: r
      | [] => [[c]]

/-- The `name` of a `pathlib.Path`: the final path component, after the
parser drops empty and `"."` components (`Path('a/b.txt').name = "b.txt"`,
`Path('a/').name = "a"`, `Path('/').name = ""`). -/
def pathlibName (p : String) : String :=
  String.mk
    ((((splitSlash p.data).filter
        (fun c => !c.isEmpty && c != ['.'])).getLast?).getD [])

/-- The ASCII members of the Python regex class `\s`. -/
def isPySpace (c : Char) : Bool :=
  c == ' ' || c == '\t' || c == '\n' || c == '\r' || c == '\x0c' || c == '\x0b'

/-! ## ContentType (`monocat/_http.py`, class `ContentType`)

The parser for the pattern
`^(?P<type>[^/\s]+)/(?P<subtype>[^;\s]+)(?:\s*;\s*(?P<attribute>[^=]+)=(?P<value>.+))?$`
applied with `re.match`.  The character classes make the greedy scan
deterministic: `type` ends at the first `/`, `subtype` is the maximal run
of non-`;` non-space characters, the optional parameter group consumes a
maximal space run then requires `;`, `attribute` ends at the first `=`
(with the second `\s*` backtracking so that `attribute` is nonempty), and
`value` is `.+` followed by `$` (which also matches just before a final
newline). -/

/-- The captured groups of `ContentType.FORMAT`: type, subtype, and the
optional attribute/value pair. -/
abbrev CTGroups : Type :=
  List Char × List Char × Option (List Char × List Char)

/-- The `attribute` capture of the optional parameter group, for the
text `r` after the `;`: the attribute run `e` ends at the first `=`, and
the greedy second `\s*` consumes `min s2 (|e| - 1)` characters of it
(backtracking just enough to leave the attribute nonempty), where `s2`
is the maximal whitespace run at the start of `r`. -/
def ctAttr (r : List Char) : List Char :=
  (r.takeWhile (fun c => c != '=')).drop
    (min ((r.takeWhile isPySpace).length)
      ((r.takeWhile (fun c => c != '=')).length - 1))

/-- Match `(?P<value>.+)$` against the text `v0` after the `=`: the
value is the maximal newline-free run, which must be nonempty and reach
the end of the text or leave exactly one final newline (`$` also matches
just before a trailing newline). -/
def ctValue (v0 : List Char) (attr : List Char) :
    Option (Option (List Char × List Char)) :=
  if (v0.takeWhile (fun c => c != '\n')).isEmpty then none
  else
    match v0.dropWhile (fun c => c != '\n') with
    | [] => some (some (attr, v0.takeWhile (fun c => c != '\n')))
    | ['\n'] => some (some (attr, v0.takeWhile (fun c => c != '\n')))
    | _ => none

/-- Match `\s*(?P<attribute>[^=]+)=(?P<value>.+)$` against the text `r`
after the `;`: the attribute run ends at the first `=` (which must exist
and not be the first character reachable), and the value follows it. -/
def ctParams (r : List Char) : Option (Option (List Char × List Char)) :=
  match r.dropWhile (fun c => c != '=') with
  | '=' :: v0 =>
    if (r.takeWhile (fun c => c != '=')).isEmpty then none
    else ctValue v0 (ctAttr r)
  | _ => none

/-- Match the tail of `ContentType.FORMAT` after the subtype:
`(?:\s*;\s*(?P<attribute>[^=]+)=(?P<value>.+))?$`.  Returns `some none`
when the optional group is absent and `$` matches (at the very end, or
just before one final newline), `some (some (a, v))` when the group
captures `a`/`v`, and `none` when the whole match fails. -/
def ctTail (rest : List Char) : Option (Option (List Char × List Char)) :=
  if rest.isEmpty then some none
  else if rest == ['\n'] then some none
  else
    match rest.dropWhile isPySpace with
    | ';' :: r => ctParams r
    | _ => none

/-- `re.match` of `ContentType.FORMAT` against a header value: the type
ends at the first `/` (and must be nonempty and whitespace-free), the
subtype is the maximal nonempty run excluding `;` and whitespace, and
the remainder must be accepted by `ctTail`. -/
def ctMatch (l : List Char) : Option CTGroups :=
  match l.dropWhile (fun c => c != '/') with
  | '/' :: rest1 =>
    if (l.takeWhile (fun c => c != '/')).isEmpty ||
        (l.takeWhile (fun c => c != '/')).any isPySpace then none
    else if (rest1.takeWhile (fun c => c != ';' && !isPySpace c)).isEmpty then
      none
    else
      (ctTail (rest1.dropWhile (fun c => c != ';' && !isPySpace c))).map
        (fun av => (l.takeWhile (fun c => c != '/'),
          rest1.takeWhile (fun c => c != ';' && !isPySpace c), av))
  | _ => none

/-- `ContentType` (`_http.py` lines 8-43): an HTTP Content-Type record.
The source's `attribute` field is spelled `attr` here (`attribute` is a
reserved word in Lean). -/
structure ContentType where
  type : String
  subtype : String
  attr : Option String := none
  value : Option String := none
deriving DecidableEq

/-- `ContentType.from_response`: read the `Content-Type` header (absent
headers default to `''` via `response.getheader('Content-Type', '')`),
match it against `FORMAT`, and fall back to `text/plain` when the match
fails; on success build the record from the captured group dictionary. -/
def ContentType.from_response (h : Option String) : ContentType :=
  match ctMatch (h.getD "").data with
  | none => ⟨"text", "plain", none, none⟩
  | some (t, st, av) =>
    ⟨String.mk t, String.mk st, av.map (fun a => String.mk a.1),
      av.map (fun a => String.mk a.2)⟩

/-- `ContentType.is_json`: true iff `type/subtype` lower-cased equals
`application/json`. -/
def ContentType.is_json (c : ContentType) : Bool :=
  (c.type ++ "/" ++ c.subtype).toLower == "application/json"

/-! Declarative characterization of `ContentType.FORMAT` matching. -/

/-- The language of the tail of `ContentType.FORMAT`
(`(?:\s*;\s*[^=]+=.+)?$` with `$` also accepting one final newline). -/
def IsCTTail (rest : List Char) : Prop :=
  rest = [] ∨ rest = ['\n'] ∨
  ∃ w a v nl, rest = w ++ ';' :: (a ++ '=' :: (v ++ nl)) ∧
    (∀ c ∈ w, isPySpace c = true) ∧ a ≠ [] ∧ '=' ∉ a ∧
    v ≠ [] ∧ '\n' ∉ v ∧ (nl = [] ∨ nl = ['\n'])

/-- A header value matches `ContentType.FORMAT` iff it decomposes as a
nonempty `/`-free whitespace-free type, a `/`, a nonempty `;`-free
whitespace-free subtype, and a tail in the optional-parameter language. -/
def MatchesCTFormat (l : List Char) : Prop :=
  ∃ t st rest, l = t ++ '/' :: (st ++ rest) ∧
    t ≠ [] ∧ (∀ c ∈ t, c ≠ '/' ∧ isPySpace c = false) ∧
    st ≠ [] ∧ (∀ c ∈ st, c ≠ ';' ∧ isPySpace c = false) ∧
    IsCTTail rest

/-- The captured groups of a successful `ContentType.FORMAT` match
genuinely decompose the header per the pattern: the header is the type,
a `/`, the subtype, and a tail which is empty (no attribute/value) or of
the form `\s* ; \s* attribute = value [newline]`. -/
def CTCaptures (l : List Char) (g : CTGroups) : Prop :=
  ∃ rest, l = g.1 ++ '/' :: (g.2.1 ++ rest) ∧
    g.1 ≠ [] ∧ (∀ c ∈ g.1, c ≠ '/' ∧ isPySpace c = false) ∧
    g.2.1 ≠ [] ∧ (∀ c ∈ g.2.1, c ≠ ';' ∧ isPySpace c = false) ∧
    (match g.2.2 with
     | none => rest = [] ∨ rest = ['\n']
     | some (a, v) =>
       ∃ w1 w2 nl, rest = w1 ++ ';' :: (w2 ++ a ++ '=' :: (v ++ nl)) ∧
         (∀ c ∈ w1, isPySpace c = true) ∧ (∀ c ∈ w2, isPySpace c = true) ∧
         a ≠ [] ∧ '=' ∉ a ∧ v ≠ [] ∧ '\n' ∉ v ∧ (nl = [] ∨ nl = ['\n']))

/-! ## WebLink header (`monocat/_http.py`, classes `WebLink`,
`WebLinkHeader`)

`from_value` runs `re.finditer(r'(?:, *)?<(?P<url>[^>]+)>(?:; *)?', value)`
to locate the link tokens, slices the text between consecutive matches as
that link's parameter text, and parses each parameter text with
`re.finditer(r'(?:; *)?(?P<key>[^=]+)=(?P<value>(?:\"[^\"]+\"|[^;]+)?)', ...)`.
Both scans are embedded as left-to-right non-overlapping matchers. -/

/-- A parsed web link: the bracketed URL and its parameter mapping (a
Python dict comprehension, so a later binding of a key overrides an
earlier one; values are `.strip(' "')`-ed). -/
structure WebLink where
  url : String
  params : List (String × String)
deriving DecidableEq

/-- An ordered sequence of web links. -/
structure WebLinkHeader where
  links : List WebLink
deriving DecidableEq

/-- `WebLinkHeader.rel`: scan the links in reverse order and return the
first whose `rel` parameter equals `value` (`link.params.get('rel') ==
value`); `None` when no link matches. -/
def WebLinkHeader.rel (h : WebLinkHeader) (value : String) : Option WebLink :=
  h.links.reverse.find? (fun link => pyGet link.params "rel" == some value)

/-- Match `<(?P<url>[^>]+)>(?:; *)?` at the head of the text: the URL is
the maximal nonempty `>`-free run between angle brackets, and a following
`; ` run is consumed into the match. -/
def tryAngle : List Char → Option (List Char × List Char)
  | '<' :: t =>
    let url := t.takeWhile (fun c => c != '>')
    if url.isEmpty then none
    else
      match t.dropWhile (fun c => c != '>') with
      | '>' :: r =>
        some (url,
          match r with
          | ';' :: r2 => r2.dropWhile (fun c => c == ' ')
          | _ => r)
      | _ => none
  | _ => none

/-- Match the link pattern `(?:, *)?<(?P<url>[^>]+)>(?:; *)?` anchored at
the head of the text: an optional `, ` run, then a bracketed URL.
Returns the captured URL and the text after the match end. -/
def tryLinkAt (l : List Char) : Option (List Char × List Char) :=
  match l with
  | ',' :: t => tryAngle (t.dropWhile (fun c => c == ' '))
  | _ => tryAngle l

/-- Find the first (leftmost) link match in the text: the skipped text
before the match start, the captured URL, and the text after the match. -/
def linkScan : List Char → Option (List Char × List Char × List Char)
  | [] => none
  | c :: t =>
    match tryLinkAt (c :: t) with
    | some (u, r) => some ([], u, r)
    | none =>
      match linkScan t with
      | some (s, u, r) => some (c :: s, u, r)
      | none => none

/-- Iterate the link scan: given the current link's URL and the text after
its match, emit `(url, parameter text)` pairs, the parameter text being
the text up to the next match start (or the whole remainder for the last
link), exactly as `from_value` slices `value[end : next.start]`. -/
def linksFrom (fuel : Nat) (u : List Char) (rest : List Char) :
    List (List Char × List Char) :=
  match fuel with
  | 0 => [(u, rest)]
  | fuel' + 1 =>
    match linkScan rest with
    | none => [(u, rest)]
    | some (skip, u', rest') => (u, skip) :: linksFrom fuel' u' rest'

/-- All link matches of the header value, paired with their parameter
texts. -/
def linkMatches (l : List Char) : List (List Char × List Char) :=
  match linkScan l with
  | none => []
  | some (_, u, rest) => linksFrom rest.length u rest

/-- Parse the value part `(?P<value>(?:\"[^\"]+\"|[^;]+)?)` of a
parameter: a quoted alternative first (quotes kept in the raw capture),
else a maximal `;`-free run, else empty.  Returns the raw captured value
and the remaining text. -/
def paramValue (l : List Char) : List Char × List Char :=
  match l with
  | '"' :: t =>
    let body := t.takeWhile (fun c => c != '"')
    if body.isEmpty then
      let run := l.takeWhile (fun c => c != ';')
      (run, l.drop run.length)
    else
      match t.dropWhile (fun c => c != '"') with
      | '"' :: r => ('"' :: (body ++ ['"']), r)
      | _ =>
        let run := l.takeWhile (fun c => c != ';')
        (run, l.drop run.length)
  | _ =>
    let run := l.takeWhile (fun c => c != ';')
    (run, l.drop run.length)

/-- Match `(?P<key>[^=]+)=value` at the head of the text with the
optional `; ` consumption skipped: the key is the nonempty run up to the
first `=`. -/
def tryKeyVal (l : List Char) : Option (List Char × List Char × List Char) :=
  let key := l.takeWhile (fun c => c != '=')
  if key.isEmpty then none
  else
    match l.dropWhile (fun c => c != '=') with
    | '=' :: rest =>
      let (v, r) := paramValue rest
      some (key, v, r)
    | _ => none

/-- Match the parameter pattern `(?:; *)?(?P<key>[^=]+)=(?P<value>...)`
anchored at the head of the text.  When the head is `;` the optional
group consumes `;` and a greedy space run, backtracking the space run
just enough to leave the key nonempty; if even that fails (the `;` is
immediately followed by `=`), the optional group is skipped and the key
starts at the `;` itself. -/
def tryParamAt (l : List Char) : Option (List Char × List Char × List Char) :=
  match l with
  | ';' :: t =>
    match t.findIdx? (fun c => c == '=') with
    | some k =>
      if k ≥ 1 then
        let s2 := (t.takeWhile (fun c => c == ' ')).length
        let j := min s2 (k - 1)
        let key := (t.drop j).takeWhile (fun c => c != '=')
        let (v, r) := paramValue (t.drop (k + 1))
        some (key, v, r)
      else tryKeyVal (';' :: t)
    | none => none
  | _ => tryKeyVal l

/-- Find the first parameter match in the text (skipping positions where
the pattern does not match, as `re.finditer` does). -/
def paramScan : List Char → Option (List Char × List Char × List Char)
  | [] => none
  | c :: t =>
    match tryParamAt (c :: t) with
    | some r => some r
    | none => paramScan t

/-- All parameter matches of a parameter text, as raw `(key, value)`
captures. -/
def paramsAux (fuel : Nat) (l : List Char) : List (List Char × List Char) :=
  match fuel with
  | 0 => []
  | fuel' + 1 =>
    match paramScan l with
    | none => []
    | some (k, v, rest) => (k, v) :: paramsAux fuel' rest

/-- The parameter mapping of one link: each raw captured value is
`.strip(' "')`-ed, and the pairs form the link's dict (later keys
override earlier ones under `pyGet`). -/
def paramsOf (l : List Char) : List (String × String) :=
  (paramsAux (l.length + 1) l).map
    (fun p => (String.mk p.1, String.mk (stripSpaceQuote p.2)))

/-- `WebLinkHeader.from_value` on a present (string) header value. -/
def WebLinkHeader.fromValueStr (v : String) : WebLinkHeader :=
  ⟨(linkMatches v.data).map (fun m => ⟨String.mk m.1, paramsOf m.2⟩)⟩

/-- The Python runtime error raised when `from_value` receives `None`:
`re.finditer` rejects a non-string pattern target with a `TypeError`. -/
inductive PyError where
  | typeError
deriving DecidableEq

/-- `WebLinkHeader.from_value` as reached from `from_response`: the
argument is the result of `response.headers.get('Link')`, which is `None`
when the header is absent, and `re.finditer(..., None)` raises. -/
def WebLinkHeader.from_value (v : Option String) : Except PyError WebLinkHeader :=
  match v with
  | none => Except.error PyError.typeError
  | some s => Except.ok (WebLinkHeader.fromValueStr s)

/-- `WebLinkHeader.from_response`: `cls.from_value(response.headers.get('Link'))`. -/
def WebLinkHeader.from_response (linkHeader : Option String) :
    Except PyError WebLinkHeader :=
  WebLinkHeader.from_value linkHeader

/-- A header value contains a bracketed URL token: somewhere in the text a
`<`, a nonempty `>`-free run, and a closing `>`. -/
def HasBracketToken (l : List Char) : Prop :=
  ∃ i u r, l = i ++ '<' :: (u ++ '>' :: r) ∧ u ≠ [] ∧ '>' ∉ u

/-- A bracketed URL token at the very head of the text. -/
def BracketAtHead (l : List Char) : Prop :=
  ∃ u r, l = '<' :: (u ++ '>' :: r) ∧ u ≠ [] ∧ '>' ∉ u

/-- The specification-side reading of `rel`: the last link in header
order whose `rel` parameter equals the value. -/
def WebLinkHeader.relByLast (h : WebLinkHeader) (value : String) : Option WebLink :=
  lastThat (fun link => pyGet link.params "rel" == some value) h.links

/-! ## GitHub client (`monocat/github.py`)

The network is external: every operation that performs one HTTP exchange
is embedded as a function of the `HttpResponse` the server answered with.
Response bodies are modelled at the text level (the charset decoding of
the raw bytes is external to the repository), and pydantic response
validation (`parse_obj`) is an external collaborator passed in as a
total function. -/

/-- The observable parts of a `urllib3` response: numeric status, reason
phrase, `Content-Type` header (absent allowed), and the body text. -/
structure HttpResponse where
  status : Nat
  reason : String
  contentTypeHdr : Option String
  body : String

/-- The decoded content `_request` produces from a response body: parsed
JSON data when the Content-Type is JSON (`json.loads`, modelled as a
tagged wrapper around the body text), otherwise the text itself. -/
inductive Decoded where
  | jsonData (s : String)
  | text (s : String)
deriving DecidableEq

/-- `GitHubClientError` (`github.py` lines 67-74): a runtime error
carrying the HTTP status, the reason phrase, and (as the exception
argument) the decoded response content. -/
structure GitHubClientError where
  http_status : Nat
  http_reason : String
  context : Decoded
deriving DecidableEq

/-- The client configuration (`GitHubClient.__init__`): owner and
repository, plus the two base-header values built from external inputs —
the `User-Agent` value comes from package metadata and the
`Authorization` value is the base64 encoding of the token. -/
structure GitHubClient where
  owner : String
  repository : String
  userAgentValue : String
  tokenB64 : String

/-- `self.API_CONTENT_TYPE`. -/
def apiContentType : String := "application/vnd.github.v3+json; charset=UTF-8"

/-- `self.base_headers`: User-Agent, Authorization, Accept. -/
def GitHubClient.base_headers (c : GitHubClient) : List (String × String) :=
  [("User-Agent", c.userAgentValue),
   ("Authorization", "Basic " ++ c.tokenB64),
   ("Accept", "application/vnd.github.v3+json")]

/-- Whether the verb gets a Content-Type header in `_request`
(`method in ('PATCH', 'POST', 'PUT')`). -/
def mutatingVerb (m : String) : Bool :=
  m == "PATCH" || m == "POST" || m == "PUT"

/-- The effective header mapping of `_request` (lines 115-120): for
mutating verbs `{**self.base_headers, 'Content-Type': self.API_CONTENT_TYPE,
**headers}`, otherwise `{**self.base_headers, **headers}`.  A Python dict
overlay is a left-to-right sequence of bindings in which a later binding
of a key overrides an earlier one, which `pyGet` reads off the
concatenation. -/
def GitHubClient.requestHeaders (c : GitHubClient) (method : String)
    (caller : List (String × String)) : List (String × String) :=
  if mutatingVerb method then
    c.base_headers ++ [("Content-Type", apiContentType)] ++ caller
  else
    c.base_headers ++ caller

/-- The decoded body of a response (lines 125-134): parse the
Content-Type, and decode as JSON data iff `is_json()`. -/
def decodedBody (resp : HttpResponse) : Decoded :=
  if (ContentType.from_response resp.contentTypeHdr).is_json then
    Decoded.jsonData resp.body
  else
    Decoded.text resp.body

/-- `GitHubClient._request` (lines 107-144) as a function of the server's
response: build the effective headers, decode the content, and raise
`GitHubClientError(status, reason, content)` iff `response.status >= 400`;
otherwise return the decoded content. -/
def GitHubClient.request (c : GitHubClient) (method url : String)
    (caller : List (String × String)) (resp : HttpResponse) :
    Except GitHubClientError Decoded :=
  let _headers := c.requestHeaders method caller
  let _resolvedUrl := url
  let content := decodedBody resp
  if 400 ≤ resp.status then
    Except.error ⟨resp.status, resp.reason, content⟩
  else
    Except.ok content

/-- The asset-response fields used by the claims under verification. -/
structure AssetResponse where
  name : String
  id : Int
deriving DecidableEq

/-- The release fields used by the claims under verification (the full
`ReleaseResponse` model carries further metadata fields). -/
structure ReleaseResponse where
  id : Int
  tag_name : String
  upload_url : String
  assets : List AssetResponse
deriving DecidableEq

/-- `GitHubClient.get_release` (lines 169-181): GET the release, parse
the decoded content (`ReleaseResponse.parse_obj`, external, passed as
`parse`), return `None` when the transport raised with status 404, and
re-raise any other `GitHubClientError`. -/
def GitHubClient.get_release (c : GitHubClient)
    (parse : Decoded → ReleaseResponse) (release_id : String)
    (resp : HttpResponse) : Except GitHubClientError (Option ReleaseResponse) :=
  match c.request "GET"
      ("/repos/" ++ c.owner ++ "/" ++ c.repository ++ "/releases/" ++ release_id)
      [] resp with
  | Except.ok content => Except.ok (some (parse content))
  | Except.error e =>
    if e.http_status != 404 then Except.error e else Except.ok none

/-- `GitHubClient.get_release_by_tag` (lines 183-195): same protocol
against the tag lookup endpoint. -/
def GitHubClient.get_release_by_tag (c : GitHubClient)
    (parse : Decoded → ReleaseResponse) (tag : String)
    (resp : HttpResponse) : Except GitHubClientError (Option ReleaseResponse) :=
  match c.request "GET"
      ("/repos/" ++ c.owner ++ "/" ++ c.repository ++ "/releases/tags/" ++ tag)
      [] resp with
  | Except.ok content => Except.ok (some (parse content))
  | Except.error e =>
    if e.http_status != 404 then Except.error e else Except.ok none

/-! ### Release requests and their serialization -/

/-- The declared fields of the `ReleaseRequest` pydantic model. -/
inductive RField where
  | tag_name
  | target_commitish
  | name
  | body
  | draft
  | prerelease
deriving DecidableEq

/-- The JSON key of a `ReleaseRequest` field. -/
def RField.key : RField → String
  | RField.tag_name => "tag_name"
  | RField.target_commitish => "target_commitish"
  | RField.name => "name"
  | RField.body => "body"
  | RField.draft => "draft"
  | RField.prerelease => "prerelease"

/-- A serialized JSON value of a `ReleaseRequest` field. -/
inductive JValue where
  | str (s : String)
  | bool (b : Bool)
deriving DecidableEq

/-- `ReleaseRequest` (`github.py` lines 39-45): the outbound release
payload.  pydantic tracks which fields the caller explicitly provided in
`__fields_set__`, modelled by `fields_set` (assignment after construction
also adds to it). -/
structure ReleaseRequest where
  tag_name : String
  target_commitish : String := ""
  name : String := ""
  body : String := ""
  draft : Bool := false
  prerelease : Bool := false
  fields_set : List RField
deriving DecidableEq

/-- The serialized value of one field of a `ReleaseRequest`. -/
def ReleaseRequest.fieldVal (r : ReleaseRequest) : RField → JValue
  | RField.tag_name => JValue.str r.tag_name
  | RField.target_commitish => JValue.str r.target_commitish
  | RField.name => JValue.str r.name
  | RField.body => JValue.str r.body
  | RField.draft => JValue.bool r.draft
  | RField.prerelease => JValue.bool r.prerelease

/-- The declared fields in model order. -/
def allRFields : List RField :=
  [RField.tag_name, RField.target_commitish, RField.name, RField.body,
   RField.draft, RField.prerelease]

/-- `release.json(exclude_unset=True)` (pydantic, external, modelled per
its contract): serialize exactly the declared fields that are in
`__fields_set__`, in model order, keyed by field name. -/
def ReleaseRequest.jsonExcludeUnset (r : ReleaseRequest) :
    List (String × JValue) :=
  (allRFields.filter (fun f => r.fields_set.contains f)).map
    (fun f => (f.key, r.fieldVal f))

/-- The wire request an operation issues: HTTP method, URL, and the
serialized body fields. -/
structure ApiCall where
  method : String
  url : String
  bodyFields : List (String × JValue)
deriving DecidableEq

/-- The request issued by `GitHubClient.create_release` (lines 197-207):
POST to the releases collection with `release.json(exclude_unset=True)`
as body.  (The response is parsed by the external `parse_obj`; only the
issued request matters for the serialization claims.) -/
def GitHubClient.create_release (c : GitHubClient) (release : ReleaseRequest) :
    ApiCall :=
  ⟨"POST", "/repos/" ++ c.owner ++ "/" ++ c.repository ++ "/releases",
    release.jsonExcludeUnset⟩

/-- The request issued by `GitHubClient.update_release` (lines 209-219):
PATCH against the given release id with `release.json(exclude_unset=True)`
as body. -/
def GitHubClient.update_release (c : GitHubClient) (release : ReleaseRequest)
    (release_id : Int) : ApiCall :=
  ⟨"PATCH",
    "/repos/" ++ c.owner ++ "/" ++ c.repository ++ "/releases/" ++
      toString release_id,
    release.jsonExcludeUnset⟩

/-! ## Release manager (`monocat/__init__.py`) and the update action
(`monocat/actions.py`) -/

/-- `AssetRequest` (`github.py` lines 19-21): the outbound asset payload. -/
structure AssetRequest where
  name : String
  label : String
deriving DecidableEq

/-- `ReleaseManager.upload_assets` (`__init__.py` lines 40-56): build the
name-to-id dict of the release's existing assets (a dict comprehension —
a later asset with the same name overrides an earlier one), then for each
artifact path derive the asset name and label from the path's base name,
open and read the file (external, `readFile`), and upload
(`client.upload_asset`, external, `upload`) unless `not asset_id` is
false — i.e. skip exactly when the dict lookup yields a truthy
(nonzero) id.  Returns the uploaded assets in artifact order. -/
def uploadAssets (upload : String → AssetRequest → String → AssetResponse)
    (readFile : String → String) (release : ReleaseResponse)
    (artifacts : List String) : List AssetResponse :=
  let existing := release.assets.map (fun a => (a.name, a.id))
  artifacts.foldr
    (fun artifact response =>
      let asset : AssetRequest := ⟨pathlibName artifact, pathlibName artifact⟩
      let fileBody := readFile artifact
      let asset_id := pyGet existing asset.name
      if pyTruthy asset_id then response
      else upload release.upload_url asset fileBody :: response)
    []

/-- The completion signal of `UpdateReleaseAction.__call__`
(`actions.py` line 92): `len(assets) == len(arguments.artifacts)`. -/
def allUploadsSuccessful (assets : List AssetResponse)
    (artifacts : List String) : Bool :=
  assets.length == artifacts.length

/-- The specification-side de-duplication lookup: the last asset in the
release's existing asset list bearing the given name. -/
def lastAssetNamed (release : ReleaseResponse) (n : String) :
    Option AssetResponse :=
  lastThat (fun a => a.name == n) release.assets

/-- The specification-side skip condition of the upload step: an artifact
is skipped exactly when the last existing asset sharing its base name has
a nonzero id. -/
def skipsUpload (release : ReleaseResponse) (artifact : String) : Bool :=
  match lastAssetNamed release (pathlibName artifact) with
  | none => false
  | some a => a.id != 0

/-! ## Concrete scenario inputs -/

/-- An upload collaborator for the C3 scenario: uploading an asset
succeeds and yields an asset response named after the request with
id 99. -/
def upC3 : String → AssetRequest → String → AssetResponse :=
  fun _ asset _ => ⟨asset.name, 99⟩

/-- A file-system collaborator for the C3 scenario: every artifact file
exists and reads fully. -/
def readC3 : String → String := fun _ => "artifact-bytes"

/-- The C3 release: one existing asset named `a.txt`. -/
def relC3 : ReleaseResponse := ⟨10, "v1.0", "https://uploads/x", [⟨"a.txt", 1⟩]⟩

/-- An upload collaborator for the C4 counterexample. -/
def upC4 : String → AssetRequest → String → AssetResponse :=
  fun _ asset _ => ⟨asset.name, 77⟩

/-- A file-system collaborator for the C4 counterexample. -/
def readC4 : String → String := fun _ => "bytes"

/-- The C4 counterexample release: two existing assets both named
`a.txt`, the first with id 5 and the last with id 0. -/
def relC4 : ReleaseResponse :=
  ⟨11, "v2.0", "https://uploads/y", [⟨"a.txt", 5⟩, ⟨"a.txt", 0⟩]⟩

end Monocat

namespace Monocat

/-! ## Helper lemmas -/

/-- Lookup distributes over a dict overlay: the later (right) operand
wins. -/
theorem pyGet_append {α : Type} (a b : List (String × α)) (k : String) :
    pyGet (a ++ b) k =
      match pyGet b k with
      | some v => some v
      | none => pyGet a k := by
  induction a with
  | nil => cases hb : pyGet b k <;> simp [pyGet, hb]
  | cons hd tl ih =>
    obtain ⟨k', v⟩ := hd
    show (match pyGet (tl ++ b) k with
          | some r => some r
          | none => if k' == k then some v else none) = _
    rw [ih]
    cases hb : pyGet b k <;> cases ht : pyGet tl k <;>
      simp [pyGet, hb, ht]

/-- Searching a reversed list is taking the last match of the original
list. -/
theorem reverse_find_eq_lastThat {α : Type} (p : α → Bool) (l : List α) :
    l.reverse.find? p = lastThat p l := by
  induction l with
  | nil => rfl
  | cons a t ih =>
    rw [List.reverse_cons, List.find?_append, ih]
    cases h : lastThat p t <;> cases hp : p a <;>
      simp [lastThat, h, hp, List.find?, Option.or]

/-- Unfolding `uploadAssets` over the first artifact. -/
theorem uploadAssets_cons (up : String → AssetRequest → String → AssetResponse)
    (rf : String → String) (rel : ReleaseResponse) (p : String)
    (t : List String) :
    uploadAssets up rf rel (p :: t) =
      if pyTruthy (pyGet (rel.assets.map (fun a => (a.name, a.id)))
          (pathlibName p)) then
        uploadAssets up rf rel t
      else
        up rel.upload_url ⟨pathlibName p, pathlibName p⟩ (rf p) ::
          uploadAssets up rf rel t := rfl

/-- The dict-comprehension lookup over the asset list is the id of the
last asset bearing the name. -/
theorem pyGet_assets_map (l : List AssetResponse) (n : String) :
    pyGet (l.map (fun a => (a.name, a.id))) n =
      (lastThat (fun a => a.name == n) l).map AssetResponse.id := by
  induction l with
  | nil => rfl
  | cons a t ih =>
    simp only [List.map_cons, pyGet, ih]
    cases h : lastThat (fun a => a.name == n) t <;>
      cases hn : (a.name == n) <;> simp [lastThat, h, hn]

/-- The upload loop's skip test equals the specification-side skip
condition. -/
theorem pyTruthy_eq_skipsUpload (rel : ReleaseResponse) (p : String) :
    pyTruthy (pyGet (rel.assets.map (fun a => (a.name, a.id)))
        (pathlibName p)) = skipsUpload rel p := by
  rw [pyGet_assets_map]
  unfold skipsUpload lastAssetNamed
  cases h : lastThat (fun a => a.name == pathlibName p) rel.assets <;>
    simp [pyTruthy]

/-- `takeWhile` over a list that starts with an all-satisfying block
followed by a failing element returns exactly the block. -/
theorem takeWhile_append_of {p : Char → Bool} (t : List Char) (x : Char)
    (r : List Char) (ht : ∀ c ∈ t, p c = true) (hx : p x = false) :
    (t ++ x :: r).takeWhile p = t := by
  induction t with
  | nil => simp [List.takeWhile_cons, hx]
  | cons a t' ih =>
    have ha := ht a (by simp)
    simp only [List.cons_append, List.takeWhile_cons, ha, if_true]
    rw [ih (fun c hc => ht c (by simp [hc]))]

/-- `dropWhile` over a list that starts with an all-satisfying block
followed by a failing element drops exactly the block. -/
theorem dropWhile_append_of {p : Char → Bool} (t : List Char) (x : Char)
    (r : List Char) (ht : ∀ c ∈ t, p c = true) (hx : p x = false) :
    (t ++ x :: r).dropWhile p = x :: r := by
  induction t with
  | nil => simp [List.dropWhile_cons, hx]
  | cons a t' ih =>
    have ha := ht a (by simp)
    simp only [List.cons_append, List.dropWhile_cons, ha, if_true]
    exact ih (fun c hc => ht c (by simp [hc]))

/-- `takeWhile` of an all-satisfying list is the list itself. -/
theorem takeWhile_all {p : Char → Bool} (l : List Char)
    (h : ∀ c ∈ l, p c = true) : l.takeWhile p = l :=
  List.takeWhile_eq_self_iff.mpr h

/-- `dropWhile` of an all-satisfying list is empty. -/
theorem dropWhile_all {p : Char → Bool} (l : List Char)
    (h : ∀ c ∈ l, p c = true) : l.dropWhile p = [] := by
  induction l with
  | nil => rfl
  | cons a t ih =>
    simp only [List.dropWhile_cons, h a (by simp), if_true]
    exact ih (fun c hc => h c (by simp [hc]))

/-- An initial segment of a `takeWhile` is an initial segment of the
underlying list. -/
theorem take_takeWhile_eq_take {p : Char → Bool} (l : List Char) (j : Nat)
    (hj : j ≤ (l.takeWhile p).length) : (l.takeWhile p).take j = l.take j := by
  conv_rhs => rw [← List.takeWhile_append_dropWhile (p := p) (l := l)]
  rw [List.take_append_of_le_length hj]

/-- Members of an initial segment of a `takeWhile` satisfy the
predicate. -/
theorem mem_take_takeWhile {p : Char → Bool} (l : List Char) (j : Nat)
    (hj : j ≤ (l.takeWhile p).length) (c : Char) (hc : c ∈ l.take j) :
    p c = true := by
  have hre : l.take j = (l.takeWhile p).take j := by
    conv_lhs => rw [← List.takeWhile_append_dropWhile (p := p) (l := l)]
    exact List.take_append_of_le_length hj
  rw [hre] at hc
  exact List.mem_takeWhile_imp (List.take_subset j _ hc)

/-- Decomposition of the tail text exhibited by a successful match of
the optional parameter group. -/
theorem ctTail_some_decomp (rest r v0 : List Char)
    (hdwA : rest.dropWhile isPySpace = ';' :: r)
    (hdwE : r.dropWhile (fun c => c != '=') = '=' :: v0)
    (h3 : ¬(r.takeWhile (fun c => c != '=')).isEmpty = true)
    (h4 : ¬(v0.takeWhile (fun c => c != '\n')).isEmpty = true)
    (hnl : v0.dropWhile (fun c => c != '\n') = [] ∨
      v0.dropWhile (fun c => c != '\n') = ['\n']) :
    ∃ w1 w2 nl,
      rest = w1 ++ ';' :: (w2 ++ ctAttr r ++ '=' ::
        (v0.takeWhile (fun c => c != '\n') ++ nl)) ∧
      (∀ c ∈ w1, isPySpace c = true) ∧ (∀ c ∈ w2, isPySpace c = true) ∧
      ctAttr r ≠ [] ∧ '=' ∉ ctAttr r ∧
      v0.takeWhile (fun c => c != '\n') ≠ [] ∧
      '\n' ∉ v0.takeWhile (fun c => c != '\n') ∧
      (nl = [] ∨ nl = ['\n']) := by
  have hw1eq : rest.takeWhile isPySpace ++ ';' :: r = rest := by
    conv_rhs => rw [← List.takeWhile_append_dropWhile (p := isPySpace)
      (l := rest)]
    rw [hdwA]
  have hreq : r.takeWhile (fun c => c != '=') ++ '=' :: v0 = r := by
    conv_rhs => rw [← List.takeWhile_append_dropWhile
      (p := fun c => c != '=') (l := r)]
    rw [hdwE]
  have hveq : v0.takeWhile (fun c => c != '\n') ++
      v0.dropWhile (fun c => c != '\n') = v0 :=
    List.takeWhile_append_dropWhile (fun c => c != '\n') v0
  have hene : r.takeWhile (fun c => c != '=') ≠ [] := by
    simpa [List.isEmpty_iff] using h3
  have helen : 1 ≤ (r.takeWhile (fun c => c != '=')).length := by
    have := List.length_pos.mpr hene
    omega
  have hjlt : min ((r.takeWhile isPySpace).length)
      ((r.takeWhile (fun c => c != '=')).length - 1) <
      (r.takeWhile (fun c => c != '=')).length := by
    have := Nat.min_le_right ((r.takeWhile isPySpace).length)
      ((r.takeWhile (fun c => c != '=')).length - 1)
    omega
  have hjs2 : min ((r.takeWhile isPySpace).length)
      ((r.takeWhile (fun c => c != '=')).length - 1) ≤
      (r.takeWhile isPySpace).length :=
    Nat.min_le_left _ _
  have hsplit_e : (r.takeWhile (fun c => c != '=')).take
      (min ((r.takeWhile isPySpace).length)
        ((r.takeWhile (fun c => c != '=')).length - 1)) ++ ctAttr r =
      r.takeWhile (fun c => c != '=') :=
    List.take_append_drop _ _
  have hw2 : ∀ c ∈ (r.takeWhile (fun c => c != '=')).take
      (min ((r.takeWhile isPySpace).length)
        ((r.takeWhile (fun c => c != '=')).length - 1)),
      isPySpace c = true := by
    intro c hc
    rw [take_takeWhile_eq_take r _ (le_of_lt hjlt)] at hc
    exact mem_take_takeWhile r _ hjs2 c hc
  have hattr_len : (ctAttr r).length =
      (r.takeWhile (fun c => c != '=')).length -
        min ((r.takeWhile isPySpace).length)
          ((r.takeWhile (fun c => c != '=')).length - 1) :=
    List.length_drop _ _
  have hattr_ne : ctAttr r ≠ [] := by
    apply List.ne_nil_of_length_pos
    rw [hattr_len]
    omega
  have hattr_noeq : '=' ∉ ctAttr r := by
    intro hc
    have hce : '=' ∈ r.takeWhile (fun c => c != '=') :=
      List.drop_subset _ _ hc
    have := List.mem_takeWhile_imp hce
    simp at this
  have hrun_ne : v0.takeWhile (fun c => c != '\n') ≠ [] := by
    simpa [List.isEmpty_iff] using h4
  have hrun_nonl : '\n' ∉ v0.takeWhile (fun c => c != '\n') := by
    intro hc
    have := List.mem_takeWhile_imp hc
    simp at this
  refine ⟨rest.takeWhile isPySpace,
    (r.takeWhile (fun c => c != '=')).take
      (min ((r.takeWhile isPySpace).length)
        ((r.takeWhile (fun c => c != '=')).length - 1)),
    v0.dropWhile (fun c => c != '\n'),
    ?_, fun c hc => List.mem_takeWhile_imp hc, hw2, hattr_ne, hattr_noeq,
    hrun_ne, hrun_nonl, hnl⟩
  have hfinal : r =
      (r.takeWhile (fun c => c != '=')).take
        (min ((r.takeWhile isPySpace).length)
          ((r.takeWhile (fun c => c != '=')).length - 1)) ++
      ctAttr r ++ '=' :: (v0.takeWhile (fun c => c != '\n') ++
        v0.dropWhile (fun c => c != '\n')) := by
    calc r = r.takeWhile (fun c => c != '=') ++ '=' :: v0 := hreq.symm
      _ = ((r.takeWhile (fun c => c != '=')).take
            (min ((r.takeWhile isPySpace).length)
              ((r.takeWhile (fun c => c != '=')).length - 1)) ++
          ctAttr r) ++ '=' :: v0 := by rw [hsplit_e]
      _ = ((r.takeWhile (fun c => c != '=')).take
            (min ((r.takeWhile isPySpace).length)
              ((r.takeWhile (fun c => c != '=')).length - 1)) ++
          ctAttr r) ++ '=' :: (v0.takeWhile (fun c => c != '\n') ++
            v0.dropWhile (fun c => c != '\n')) := by rw [hveq]
      _ = _ := by rw [List.append_assoc]
  conv_lhs => rw [← hw1eq]
  exact congrArg
    (fun x => List.takeWhile isPySpace rest ++ (';' :: x)) hfinal

/-- Inversion of `ctParams`: a successful parameter-group match pins
down the split at the first `=`, the nonempty attribute run, the
nonempty value run, and the at-most-one-final-newline leftover. -/
theorem ctParams_sound (r : List Char) (av : Option (List Char × List Char))
    (h : ctParams r = some av) :
    ∃ v0, r.dropWhile (fun c => c != '=') = '=' :: v0 ∧
      ¬(r.takeWhile (fun c => c != '=')).isEmpty = true ∧
      ¬(v0.takeWhile (fun c => c != '\n')).isEmpty = true ∧
      (v0.dropWhile (fun c => c != '\n') = [] ∨
        v0.dropWhile (fun c => c != '\n') = ['\n']) ∧
      av = some (ctAttr r, v0.takeWhile (fun c => c != '\n')) := by
  unfold ctParams at h
  split at h
  next v0 hdwE =>
    by_cases h3 : (r.takeWhile (fun c => c != '=')).isEmpty
    · rw [if_pos h3] at h
      exact absurd h (by simp)
    · rw [if_neg h3] at h
      unfold ctValue at h
      by_cases h4 : (v0.takeWhile (fun c => c != '\n')).isEmpty
      · rw [if_pos h4] at h
        exact absurd h (by simp)
      · rw [if_neg h4] at h
        split at h
        next hnl =>
          exact ⟨v0, hdwE, h3, h4, Or.inl hnl,
            by injection h with h; exact h.symm⟩
        next hnl =>
          exact ⟨v0, hdwE, h3, h4, Or.inr hnl,
            by injection h with h; exact h.symm⟩
        next => exact absurd h (by simp)
  next => exact absurd h (by simp)

/-- Soundness of the tail matcher: a successful match decomposes the
tail per the pattern. -/
theorem ctTail_sound (rest : List Char) (av : Option (List Char × List Char))
    (h : ctTail rest = some av) :
    (av = none → rest = [] ∨ rest = ['\n']) ∧
    (∀ a v, av = some (a, v) →
      ∃ w1 w2 nl, rest = w1 ++ ';' :: (w2 ++ a ++ '=' :: (v ++ nl)) ∧
        (∀ c ∈ w1, isPySpace c = true) ∧ (∀ c ∈ w2, isPySpace c = true) ∧
        a ≠ [] ∧ '=' ∉ a ∧ v ≠ [] ∧ '\n' ∉ v ∧ (nl = [] ∨ nl = ['\n'])) := by
  unfold ctTail at h
  by_cases h1 : rest.isEmpty
  · rw [if_pos h1] at h
    injection h with h
    subst h
    exact ⟨fun _ => Or.inl (List.isEmpty_iff.mp h1), by simp⟩
  · rw [if_neg h1] at h
    by_cases h2 : rest == ['\n']
    · rw [if_pos h2] at h
      injection h with h
      subst h
      exact ⟨fun _ => Or.inr (eq_of_beq h2), by simp⟩
    · rw [if_neg h2] at h
      split at h
      next r hdwA =>
        obtain ⟨v0, hdwE, h3, h4, hnl, rfl⟩ := ctParams_sound r av h
        refine ⟨by simp, ?_⟩
        intro a v hav
        injection hav with hav
        cases hav
        exact ctTail_some_decomp rest r v0 hdwA hdwE h3 h4 hnl
      next => exact absurd h (by simp)

/-- Reduction of `ctTail` once the `\s* ;` part is located. -/
theorem ctTail_eq_semi (rest r : List Char)
    (h1 : ¬rest.isEmpty = true) (h2 : ¬(rest == ['\n']) = true)
    (hdwA : rest.dropWhile isPySpace = ';' :: r) :
    ctTail rest = ctParams r := by
  unfold ctTail
  rw [if_neg h1, if_neg h2, hdwA]
  rfl

/-- Reduction of `ctParams` once the first `=` is located and the
attribute run is nonempty. -/
theorem ctParams_eq (r v0 : List Char)
    (hdwE : r.dropWhile (fun c => c != '=') = '=' :: v0)
    (h3 : ¬(r.takeWhile (fun c => c != '=')).isEmpty = true) :
    ctParams r = ctValue v0 (ctAttr r) := by
  unfold ctParams
  rw [hdwE]
  show (if (r.takeWhile (fun c => c != '=')).isEmpty then none
        else ctValue v0 (ctAttr r)) = ctValue v0 (ctAttr r)
  rw [if_neg h3]

/-- The value matcher succeeds on a nonempty newline-free run followed
by nothing or one final newline. -/
theorem ctValue_isSome (v nl attr : List Char) (hv : v ≠ [])
    (hnv : '\n' ∉ v) (hnl : nl = [] ∨ nl = ['\n']) :
    (ctValue (v ++ nl) attr).isSome := by
  have hmem : ∀ c ∈ v, (c != '\n') = true := by
    intro c hc
    simp only [bne_iff_ne, ne_eq]
    exact fun he => hnv (he ▸ hc)
  rcases hnl with rfl | rfl
  · have htw : ((v ++ ([] : List Char)).takeWhile (fun c => c != '\n')) = v := by
      rw [List.append_nil]
      exact takeWhile_all v hmem
    have hdw : ((v ++ ([] : List Char)).dropWhile (fun c => c != '\n')) = [] := by
      rw [List.append_nil]
      exact dropWhile_all v hmem
    unfold ctValue
    rw [htw, hdw, if_neg (by simpa [List.isEmpty_iff] using hv)]
    simp
  · have htw : ((v ++ ['\n']).takeWhile (fun c => c != '\n')) = v :=
      takeWhile_append_of v '\n' [] hmem (by decide)
    have hdw : ((v ++ ['\n']).dropWhile (fun c => c != '\n')) = ['\n'] :=
      dropWhile_append_of v '\n' [] hmem (by decide)
    unfold ctValue
    rw [htw, hdw, if_neg (by simpa [List.isEmpty_iff] using hv)]
    simp

/-- Completeness of the tail matcher: every tail in the language is
accepted. -/
theorem ctTail_complete (rest : List Char) (h : IsCTTail rest) :
    (ctTail rest).isSome := by
  rcases h with rfl | rfl | ⟨w, a, v, nl, rfl, hw, ha, hna, hv, hnv, hnl⟩
  · rfl
  · rfl
  · have hva : 0 < a.length := List.length_pos.mpr ha
    have hvv : 0 < v.length := List.length_pos.mpr hv
    have h1 : ¬(w ++ ';' :: (a ++ '=' :: (v ++ nl))).isEmpty = true := by
      rw [List.isEmpty_iff]
      intro he
      have := congrArg List.length he
      simp [List.length_append] at this
    have h2 : ¬((w ++ ';' :: (a ++ '=' :: (v ++ nl))) == ['\n']) = true := by
      intro hb
      have := congrArg List.length (eq_of_beq hb)
      simp [List.length_append] at this
      omega
    have hdwA : (w ++ ';' :: (a ++ '=' :: (v ++ nl))).dropWhile isPySpace =
        ';' :: (a ++ '=' :: (v ++ nl)) :=
      dropWhile_append_of w ';' _ hw (by decide)
    rw [ctTail_eq_semi _ _ h1 h2 hdwA]
    have hmema : ∀ c ∈ a, (c != '=') = true := by
      intro c hc
      simp only [bne_iff_ne, ne_eq]
      exact fun he => hna (he ▸ hc)
    have hdwE : (a ++ '=' :: (v ++ nl)).dropWhile (fun c => c != '=') =
        '=' :: (v ++ nl) :=
      dropWhile_append_of a '=' _ hmema (by decide)
    have htwE : (a ++ '=' :: (v ++ nl)).takeWhile (fun c => c != '=') = a :=
      takeWhile_append_of a '=' _ hmema (by decide)
    rw [ctParams_eq _ _ hdwE (by rw [htwE]; simpa [List.isEmpty_iff] using ha)]
    exact ctValue_isSome v nl _ hv hnv hnl

/-- Reduction of `ctMatch` once the first `/` is located. -/
theorem ctMatch_eq_cons (l rest1 : List Char)
    (hdw : l.dropWhile (fun c => c != '/') = '/' :: rest1) :
    ctMatch l =
      (if (l.takeWhile (fun c => c != '/')).isEmpty ||
          (l.takeWhile (fun c => c != '/')).any isPySpace then none
       else if (rest1.takeWhile
          (fun c => c != ';' && !isPySpace c)).isEmpty then none
       else
        (ctTail (rest1.dropWhile (fun c => c != ';' && !isPySpace c))).map
          (fun av => (l.takeWhile (fun c => c != '/'),
            rest1.takeWhile (fun c => c != ';' && !isPySpace c), av))) := by
  unfold ctMatch
  rw [hdw]
  rfl

/-- Soundness of the full matcher: a successful match's captured groups
decompose the header per the pattern. -/
theorem ctMatch_sound (l : List Char) (g : CTGroups)
    (h : ctMatch l = some g) : CTCaptures l g := by
  unfold ctMatch at h
  split at h
  next rest1 hdw =>
    by_cases h1 : ((l.takeWhile (fun c => c != '/')).isEmpty ||
        (l.takeWhile (fun c => c != '/')).any isPySpace)
    · rw [if_pos h1] at h
      exact absurd h (by simp)
    · rw [if_neg h1] at h
      by_cases h2 : (rest1.takeWhile
          (fun c => c != ';' && !isPySpace c)).isEmpty
      · rw [if_pos h2] at h
        exact absurd h (by simp)
      · rw [if_neg h2] at h
        obtain ⟨av, hct, hg⟩ := Option.map_eq_some'.mp h
        obtain ⟨hnone, hsome⟩ := ctTail_sound _ _ hct
        subst hg
        simp only [Bool.or_eq_true, not_or] at h1
        obtain ⟨h1a, h1b⟩ := h1
        have hl1 : (l.takeWhile (fun c => c != '/')) ++ '/' :: rest1 = l := by
          conv_rhs => rw [← List.takeWhile_append_dropWhile
            (p := fun c => c != '/') (l := l)]
          rw [hdw]
        have hst : (rest1.takeWhile (fun c => c != ';' && !isPySpace c)) ++
            (rest1.dropWhile (fun c => c != ';' && !isPySpace c)) = rest1 :=
          List.takeWhile_append_dropWhile _ _
        refine ⟨rest1.dropWhile (fun c => c != ';' && !isPySpace c),
          ?_, ?_, ?_, ?_, ?_, ?_⟩
        · refine Eq.symm ?_
          calc (l.takeWhile (fun c => c != '/')) ++ '/' ::
                ((rest1.takeWhile (fun c => c != ';' && !isPySpace c)) ++
                  (rest1.dropWhile (fun c => c != ';' && !isPySpace c)))
              = (l.takeWhile (fun c => c != '/')) ++ '/' :: rest1 :=
                congrArg (fun x =>
                  (l.takeWhile (fun c => c != '/')) ++ ('/' :: x)) hst
            _ = l := hl1
        · simpa [List.isEmpty_iff] using h1a
        · intro c hc
          have hp := List.mem_takeWhile_imp hc
          refine ⟨by simpa using hp, ?_⟩
          by_contra hws
          have : (l.takeWhile (fun c => c != '/')).any isPySpace = true :=
            List.any_eq_true.mpr ⟨c, hc, by
              cases hq : isPySpace c
              · exact absurd hq hws
              · rfl⟩
          exact h1b this
        · simpa [List.isEmpty_iff] using h2
        · intro c hc
          have hp := List.mem_takeWhile_imp hc
          rw [Bool.and_eq_true] at hp
          refine ⟨by simpa using hp.1, by simpa using hp.2⟩
        · cases av with
          | none => exact hnone rfl
          | some p =>
            obtain ⟨a, v⟩ := p
            exact hsome a v rfl
  next => exact absurd h (by simp)

/-- Completeness of the full matcher: every header in the pattern's
language is accepted. -/
theorem ctMatch_complete (l : List Char) (h : MatchesCTFormat l) :
    (ctMatch l).isSome := by
  obtain ⟨t, st, rest, rfl, ht, htc, hst, hstc, htail⟩ := h
  have htmem : ∀ c ∈ t, (c != '/') = true := by
    intro c hc
    simpa [bne_iff_ne] using (htc c hc).1
  have htw : ((t ++ '/' :: (st ++ rest)).takeWhile (fun c => c != '/')) = t :=
    takeWhile_append_of t '/' _ htmem (by decide)
  have hdw : ((t ++ '/' :: (st ++ rest)).dropWhile (fun c => c != '/')) =
      '/' :: (st ++ rest) :=
    dropWhile_append_of t '/' _ htmem (by decide)
  rw [ctMatch_eq_cons _ _ hdw, htw]
  have hany : t.any isPySpace = false :=
    List.any_eq_false.mpr (fun c hc => by simp [(htc c hc).2])
  have h1 : ¬(t.isEmpty || t.any isPySpace) = true := by
    simp [List.isEmpty_iff, hany, ht]
  rw [if_neg h1]
  have hstmem : ∀ c ∈ st, ((c != ';') && !isPySpace c) = true := by
    intro c hc
    obtain ⟨hne, hws⟩ := hstc c hc
    simp [bne_iff_ne, hne, hws]
  have hsttw : ((st ++ rest).takeWhile
        (fun c => c != ';' && !isPySpace c)) = st ∧
      ((st ++ rest).dropWhile (fun c => c != ';' && !isPySpace c)) = rest := by
    rcases htail with rfl | rfl | ⟨w, a, v, nl, rfl, hw, ha, hna, hv, hnv, hnl⟩
    · constructor
      · rw [List.append_nil]
        exact takeWhile_all st hstmem
      · rw [List.append_nil]
        exact dropWhile_all st hstmem
    · exact ⟨takeWhile_append_of st '\n' [] hstmem (by decide),
        dropWhile_append_of st '\n' [] hstmem (by decide)⟩
    · cases w with
      | nil =>
        simp only [List.nil_append]
        exact ⟨takeWhile_append_of st ';' _ hstmem (by decide),
          dropWhile_append_of st ';' _ hstmem (by decide)⟩
      | cons wc w' =>
        have hwc : isPySpace wc = true := hw wc (by simp)
        have hcls : ((wc != ';') && !isPySpace wc) = false := by
          simp [hwc]
        simp only [List.cons_append]
        exact ⟨takeWhile_append_of st wc _ hstmem hcls,
          dropWhile_append_of st wc _ hstmem hcls⟩
  rw [hsttw.1, hsttw.2, if_neg (by simpa [List.isEmpty_iff] using hst)]
  obtain ⟨av, hav⟩ :=
    Option.isSome_iff_exists.mp (ctTail_complete rest htail)
  rw [hav]
  rfl

/-- Captured groups that decompose the header witness membership in the
pattern's language. -/
theorem matches_of_captures (l : List Char) (g : CTGroups)
    (h : CTCaptures l g) : MatchesCTFormat l := by
  obtain ⟨t, st, av⟩ := g
  obtain ⟨rest, heq, h1, h2, h3, h4, h5⟩ := h
  refine ⟨t, st, rest, heq, h1, h2, h3, h4, ?_⟩
  cases av with
  | none => exact Or.elim h5 (fun he => Or.inl he) (fun he => Or.inr (Or.inl he))
  | some p =>
    obtain ⟨a, v⟩ := p
    obtain ⟨w1, w2, nl, hre, hw1, hw2, hane, hna, hvne, hnv, hnl⟩ := h5
    refine Or.inr (Or.inr ⟨w1, w2 ++ a, v, nl, hre, hw1, ?_, ?_, hvne, hnv, hnl⟩)
    · simp [hane]
    · intro hin
      rcases List.mem_append.mp hin with hin | hin
      · have := hw2 '=' hin
        simp [isPySpace] at this
      · exact hna hin

/-- Splitting a bracket-token occurrence around the head character. -/
theorem hasBracket_cons (c : Char) (t : List Char) :
    HasBracketToken (c :: t) ↔ BracketAtHead (c :: t) ∨ HasBracketToken t := by
  constructor
  · rintro ⟨i, u, r, heq, hu, hnu⟩
    cases i with
    | nil =>
      simp only [List.nil_append] at heq
      exact Or.inl ⟨u, r, heq, hu, hnu⟩
    | cons c' i' =>
      simp only [List.cons_append, List.cons.injEq] at heq
      exact Or.inr ⟨i', u, r, heq.2, hu, hnu⟩
  · rintro (⟨u, r, heq, hu, hnu⟩ | ⟨i, u, r, heq, hu, hnu⟩)
    · exact ⟨[], u, r, by simpa using heq, hu, hnu⟩
    · exact ⟨c :: i, u, r, by simp [heq], hu, hnu⟩

/-- A bracket token somewhere in a suffix is one in the whole text. -/
theorem hasBracket_append_left (pre l : List Char)
    (h : HasBracketToken l) : HasBracketToken (pre ++ l) := by
  obtain ⟨i, u, r, heq, hu, hnu⟩ := h
  exact ⟨pre ++ i, u, r, by simp [heq], hu, hnu⟩

/-- A bracket token at the head makes the angle matcher succeed. -/
theorem tryAngle_isSome_of_bracketAtHead (l : List Char)
    (h : BracketAtHead l) : (tryAngle l).isSome := by
  obtain ⟨u, r, heq, hu, hnu⟩ := h
  subst heq
  have hmem : ∀ c ∈ u, (c != '>') = true := by
    intro c hc
    simp only [bne_iff_ne, ne_eq]
    exact fun hcgt => hnu (hcgt ▸ hc)
  have htw : (u ++ '>' :: r).takeWhile (fun c => c != '>') = u :=
    takeWhile_append_of u '>' r hmem (by decide)
  have hdw : (u ++ '>' :: r).dropWhile (fun c => c != '>') = '>' :: r :=
    dropWhile_append_of u '>' r hmem (by decide)
  have hE : tryAngle ('<' :: (u ++ '>' :: r)) =
      (if ((u ++ '>' :: r).takeWhile (fun c => c != '>')).isEmpty then none
       else
        match (u ++ '>' :: r).dropWhile (fun c => c != '>') with
        | '>' :: r2 =>
          some ((u ++ '>' :: r).takeWhile (fun c => c != '>'),
            match r2 with
            | ';' :: r3 => r3.dropWhile (fun c => c == ' ')
            | _ => r2)
        | _ => none) := rfl
  rw [hE, htw, hdw]
  rw [if_neg (by simpa [List.isEmpty_iff] using hu)]
  simp

/-- A successful angle match exhibits a bracket token. -/
theorem hasBracket_of_tryAngle_isSome (l : List Char)
    (h : (tryAngle l).isSome) : HasBracketToken l := by
  unfold tryAngle at h
  split at h
  next t =>
    by_cases hurl : (t.takeWhile (fun c => c != '>')).isEmpty
    · simp [hurl] at h
    · rw [if_neg hurl] at h
      split at h
      next r hdw =>
        refine ⟨[], t.takeWhile (fun c => c != '>'), r, ?_, ?_, ?_⟩
        · have := List.takeWhile_append_dropWhile
            (p := fun c => c != '>') (l := t)
          rw [hdw] at this
          simp [this]
        · simpa [List.isEmpty_iff] using hurl
        · intro hmem
          have := List.mem_takeWhile_imp hmem
          simp at this
      next => simp at h
  next => simp at h

/-- A successful link match exhibits a bracket token. -/
theorem hasBracket_of_tryLinkAt_isSome (l : List Char)
    (h : (tryLinkAt l).isSome) : HasBracketToken l := by
  unfold tryLinkAt at h
  split at h
  next t =>
    have hb := hasBracket_of_tryAngle_isSome _ h
    have hsplit : t = t.takeWhile (fun c => c == ' ') ++
        t.dropWhile (fun c => c == ' ') :=
      (List.takeWhile_append_dropWhile (p := fun c => c == ' ') (l := t)).symm
    have : HasBracketToken ((',' :: t.takeWhile (fun c => c == ' ')) ++
        t.dropWhile (fun c => c == ' ')) :=
      hasBracket_append_left _ _ hb
    simpa [← hsplit] using this
  next => exact hasBracket_of_tryAngle_isSome _ h

/-- Inversion of the scanner on a cons cell. -/
theorem linkScan_cons_eq_none (c : Char) (t : List Char) :
    linkScan (c :: t) = none ↔
      tryLinkAt (c :: t) = none ∧ linkScan t = none := by
  have hE : linkScan (c :: t) =
      match tryLinkAt (c :: t) with
      | some (u, r) => some (([] : List Char), u, r)
      | none =>
        match linkScan t with
        | some (s, u, r) => some (c :: s, u, r)
        | none => none := rfl
  rw [hE]
  cases h1 : tryLinkAt (c :: t) with
  | some v =>
    obtain ⟨u, r⟩ := v
    simp
  | none =>
    cases h2 : linkScan t with
    | some v =>
      obtain ⟨s, u, r⟩ := v
      simp [h2]
    | none => simp [h2]

/-- The scanner finds no link match iff the text has no bracketed URL
token. -/
theorem linkScan_eq_none_iff (l : List Char) :
    linkScan l = none ↔ ¬HasBracketToken l := by
  induction l with
  | nil =>
    simp only [linkScan, true_iff]
    rintro ⟨i, u, r, heq, -, -⟩
    cases i <;> simp at heq
  | cons c t ih =>
    rw [linkScan_cons_eq_none]
    constructor
    · rintro ⟨h1, h2⟩ hb
      rcases (hasBracket_cons c t).mp hb with hhead | htail
      · obtain ⟨u, r, heq, hu, hnu⟩ := hhead
        injection heq with hc ht
        subst hc
        subst ht
        have hlink : (tryLinkAt ('<' :: (u ++ '>' :: r))).isSome := by
          show (tryAngle ('<' :: (u ++ '>' :: r))).isSome
          exact tryAngle_isSome_of_bracketAtHead _ ⟨u, r, rfl, hu, hnu⟩
        rw [h1] at hlink
        simp at hlink
      · exact (ih.mp h2) htail
    · intro hnb
      refine ⟨?_, ih.mpr (fun hbt =>
        hnb ((hasBracket_cons c t).mpr (Or.inr hbt)))⟩
      cases h1 : tryLinkAt (c :: t) with
      | none => rfl
      | some v =>
        exact absurd
          (hasBracket_of_tryLinkAt_isSome (c :: t) (by simp [h1])) hnb

/-- The match iterator never returns an empty list. -/
theorem linksFrom_ne_nil (fuel : Nat) (u rest : List Char) :
    linksFrom fuel u rest ≠ [] := by
  cases fuel with
  | zero => simp [linksFrom]
  | succ f =>
    unfold linksFrom
    cases h : linkScan rest with
    | none => simp
    | some v =>
      obtain ⟨s, u', r⟩ := v
      simp

/-- There are no link matches iff the scanner finds none. -/
theorem linkMatches_eq_nil_iff (l : List Char) :
    linkMatches l = [] ↔ linkScan l = none := by
  unfold linkMatches
  cases h : linkScan l with
  | none => simp
  | some v =>
    obtain ⟨s, u, r⟩ := v
    simp [linksFrom_ne_nil]

/-- Every declared field is in the model-order field list. -/
theorem rfield_mem_all (f : RField) : f ∈ allRFields := by
  cases f <;> simp [allRFields]

/-- Field keys are injective. -/
theorem rfield_key_inj (f g : RField) (h : f.key = g.key) : f = g := by
  cases f <;> cases g <;> first | rfl | (exact absurd h (by decide))

/-! ## Claim theorems -/

/-- C3: given a release whose asset list contains an asset named `a.txt`
and artifacts `["a.txt", "b.txt"]`, the upload step uploads only `b.txt`,
the returned new-asset sequence has exactly one entry, and the overall
operation's completion signal is `false` because the uploaded count
differs from the requested count.  No exception is raised: in the
embedding the upload step is a total function of its (here totally
succeeding) collaborators, and this theorem evaluates it to a plain
value. -/
theorem c3_upload_scenario :
    uploadAssets upC3 readC3 relC3 ["a.txt", "b.txt"] = [⟨"b.txt", 99⟩] ∧
    (uploadAssets upC3 readC3 relC3 ["a.txt", "b.txt"]).length = 1 ∧
    allUploadsSuccessful (uploadAssets upC3 readC3 relC3 ["a.txt", "b.txt"])
      ["a.txt", "b.txt"] = false := by
  refine ⟨rfl, rfl, rfl⟩

/-- C4 counterexample: the claim states that every artifact whose base
name collides with an existing asset name is never uploaded (with the
lookup keyed to the first matching asset).  On the release whose assets
are `[a.txt ↦ id 5, a.txt ↦ id 0]` and the artifact list `["a.txt"]`, the
code uploads `a.txt` anyway: the dict comprehension keys the name to the
last matching asset (id 0), and `if not asset_id` treats the 0 id as
missing. -/
theorem c4_dedup_counterexample :
    relC4.assets.map AssetResponse.name = ["a.txt", "a.txt"] ∧
    uploadAssets upC4 readC4 relC4 ["a.txt"] = [⟨"a.txt", 77⟩] := by
  refine ⟨rfl, rfl⟩

/-- C5: for every `ReleaseRequest`, `create_release` issues a POST and
`update_release` a PATCH against the given release id, and both
serialize, under the same filtering rule, exactly the fields explicitly
set by the caller: a field's key is present in the serialized body iff
the field is in the request's set-fields record. -/
theorem c5_exclude_unset_serialization (c : GitHubClient)
    (r : ReleaseRequest) (rid : Int) (f : RField) :
    (c.create_release r).method = "POST" ∧
    (c.update_release r rid).method = "PATCH" ∧
    (c.update_release r rid).url =
      "/repos/" ++ c.owner ++ "/" ++ c.repository ++ "/releases/" ++
        toString rid ∧
    (c.update_release r rid).bodyFields = (c.create_release r).bodyFields ∧
    (f.key ∈ (c.create_release r).bodyFields.map Prod.fst ↔
      f ∈ r.fields_set) ∧
    (f.key ∈ (c.update_release r rid).bodyFields.map Prod.fst ↔
      f ∈ r.fields_set) := by
  have hmem : f.key ∈ (ReleaseRequest.jsonExcludeUnset r).map Prod.fst ↔
      f ∈ r.fields_set := by
    simp only [ReleaseRequest.jsonExcludeUnset, List.map_map, List.mem_map,
      Function.comp, List.mem_filter]
    constructor
    · rintro ⟨g, ⟨-, hset⟩, hkey⟩
      rw [← rfield_key_inj g f hkey]
      simpa using hset
    · intro hf
      exact ⟨f, ⟨rfield_mem_all f, by simpa using hf⟩, rfl⟩
  exact ⟨rfl, rfl, rfl, rfl, hmem, hmem⟩

/-- C6: the effective header mapping of a request overlays, in order,
the base headers, a Content-Type entry added only for PATCH/POST/PUT,
and the caller-supplied headers, a later entry overriding an earlier one
on key collision: lookup prefers the caller headers, then the
method-specific Content-Type, then the base headers; and for a
non-mutating verb with no caller-supplied Content-Type, no Content-Type
header is present at all (the base headers carry only User-Agent,
Authorization and Accept). -/
theorem c6_header_overlay (c : GitHubClient) (method : String)
    (caller : List (String × String)) (k : String) :
    (pyGet (c.requestHeaders method caller) k =
      match pyGet caller k with
      | some v => some v
      | none =>
        if mutatingVerb method && ("Content-Type" == k) then
          some apiContentType
        else pyGet c.base_headers k) ∧
    (mutatingVerb method = false → pyGet caller "Content-Type" = none →
      pyGet (c.requestHeaders method caller) "Content-Type" = none) := by
  have hbase : pyGet c.base_headers "Content-Type" = none := rfl
  have hsingle : ∀ k' : String,
      pyGet [("Content-Type", apiContentType)] k' =
        if "Content-Type" == k' then some apiContentType else none := by
    intro k'
    simp [pyGet]
  constructor
  · unfold GitHubClient.requestHeaders
    cases hm : mutatingVerb method with
    | true =>
      rw [if_pos rfl, pyGet_append, pyGet_append, hsingle]
      cases hc : pyGet caller k <;>
        cases hct : ("Content-Type" == k) <;> simp [hct]
    | false =>
      rw [if_neg (by simp), pyGet_append]
      cases hc : pyGet caller k <;> simp
  · intro hm hcaller
    unfold GitHubClient.requestHeaders
    rw [if_neg (by simp [hm]), pyGet_append, hcaller, hbase]

/-- C6 witness: a concrete GET with no caller headers carries no
Content-Type header. -/
theorem c6_header_overlay_witness :
    pyGet (GitHubClient.requestHeaders ⟨"o", "r", "ua", "tk"⟩ "GET" [])
      "Content-Type" = none :=
  (c6_header_overlay ⟨"o", "r", "ua", "tk"⟩ "GET" [] "Content-Type").2
    (by decide) rfl

/-- C2: the transport raises a `GitHubClientError` iff the response
status is at least 400; the raised error carries the numeric status, the
reason phrase, and the decoded (JSON-or-text) body; for every status
below 400 the decoded content is returned without error.  (The byte and
JSON decoding done by external libraries is modelled as total; the
repository's own contribution — Content-Type inspection and status
classification — is embedded in full.) -/
theorem c2_transport_error_classification (c : GitHubClient)
    (method url : String) (caller : List (String × String))
    (resp : HttpResponse) :
    ((∃ e, c.request method url caller resp = Except.error e) ↔
      400 ≤ resp.status) ∧
    (∀ e, c.request method url caller resp = Except.error e →
      e.http_status = resp.status ∧ e.http_reason = resp.reason ∧
        e.context = decodedBody resp) ∧
    (resp.status < 400 →
      c.request method url caller resp = Except.ok (decodedBody resp)) := by
  by_cases h : 400 ≤ resp.status
  · refine ⟨⟨fun _ => h,
      fun _ => ⟨⟨resp.status, resp.reason, decodedBody resp⟩, ?_⟩⟩, ?_, ?_⟩
    · simp [GitHubClient.request, h]
    · intro e he
      simp only [GitHubClient.request, if_pos h, Except.error.injEq] at he
      rw [← he]
      exact ⟨rfl, rfl, rfl⟩
    · intro hlt
      exact absurd h (by omega)
  · refine ⟨⟨?_, fun hc => absurd hc h⟩, ?_, ?_⟩
    · rintro ⟨e, he⟩
      simp [GitHubClient.request, h] at he
    · intro e he
      simp [GitHubClient.request, h] at he
    · intro _
      simp [GitHubClient.request, h]

/-- C2 witness: on a concrete 200 response the transport returns the
decoded content, and on a concrete 500 response it raises. -/
theorem c2_transport_error_classification_witness :
    GitHubClient.request ⟨"o", "r", "ua", "tk"⟩ "GET" "/x" []
        ⟨200, "OK", none, "hi"⟩ =
      Except.ok (decodedBody ⟨200, "OK", none, "hi"⟩) ∧
    (∃ e, GitHubClient.request ⟨"o", "r", "ua", "tk"⟩ "GET" "/x" []
        ⟨500, "Internal Server Error", none, "oops"⟩ = Except.error e) :=
  ⟨(c2_transport_error_classification _ _ _ _ _).2.2 (by decide),
   (c2_transport_error_classification _ _ _ _ _).1.mpr (by decide)⟩

/-- C1: for every release lookup, `get_release` and `get_release_by_tag`
return an absent result (no release, no exception) when the server
answers 404; for every other error status the classified error
propagates with the original status code, reason, and decoded body. -/
theorem c1_release_lookup_404 (c : GitHubClient)
    (parse : Decoded → ReleaseResponse) (rid tag : String)
    (resp : HttpResponse) :
    (resp.status = 404 →
      c.get_release parse rid resp = Except.ok none ∧
      c.get_release_by_tag parse tag resp = Except.ok none) ∧
    (400 ≤ resp.status → resp.status ≠ 404 →
      c.get_release parse rid resp =
        Except.error ⟨resp.status, resp.reason, decodedBody resp⟩ ∧
      c.get_release_by_tag parse tag resp =
        Except.error ⟨resp.status, resp.reason, decodedBody resp⟩) := by
  constructor
  · intro h404
    have h400 : 400 ≤ resp.status := by omega
    constructor <;>
      simp [GitHubClient.get_release, GitHubClient.get_release_by_tag,
        GitHubClient.request, h400, h404]
  · intro h400 hne
    have hb : (resp.status != 404) = true := by simpa using hne
    constructor <;>
      simp [GitHubClient.get_release, GitHubClient.get_release_by_tag,
        GitHubClient.request, h400, hb]

/-- C1 witness: on a concrete 404 response both lookups return the
absent result, and on a concrete 500 response both raise. -/
theorem c1_release_lookup_404_witness :
    GitHubClient.get_release ⟨"o", "r", "ua", "tk"⟩
        (fun _ => ⟨1, "t", "u", []⟩) "1"
        ⟨404, "Not Found", none, "nf"⟩ = Except.ok none ∧
    GitHubClient.get_release_by_tag ⟨"o", "r", "ua", "tk"⟩
        (fun _ => ⟨1, "t", "u", []⟩)
        "v1" ⟨404, "Not Found", none, "nf"⟩ = Except.ok none ∧
    GitHubClient.get_release ⟨"o", "r", "ua", "tk"⟩
        (fun _ => ⟨1, "t", "u", []⟩) "1"
        ⟨500, "ISE", none, "oops"⟩ =
      Except.error ⟨500, "ISE", decodedBody ⟨500, "ISE", none, "oops"⟩⟩ := by
  refine ⟨?_, ?_, ?_⟩
  · exact ((c1_release_lookup_404 _ _ _ "v1" _).1 rfl).1
  · exact ((c1_release_lookup_404 _ _ "1" _ _).1 rfl).2
  · exact ((c1_release_lookup_404 _ _ _ "v1" _).2 (by decide) (by decide)).1

/-- C9: for every raw Content-Type header (the empty string standing
for an absent header), parsing never fails: whenever the header is not
in the language of the pattern `type "/" subtype [";" attribute "="
value]`, the result is the `text/plain` record with no attribute or
value; and whenever it is, the result carries the captured type,
subtype, and optional attribute/value, which genuinely decompose the
header per the pattern. -/
theorem c9_content_type_total (h : Option String) :
    (¬MatchesCTFormat (h.getD "").data →
      ContentType.from_response h = ⟨"text", "plain", none, none⟩) ∧
    (MatchesCTFormat (h.getD "").data →
      ∃ g, ctMatch (h.getD "").data = some g ∧
        ContentType.from_response h =
          ⟨String.mk g.1, String.mk g.2.1,
            g.2.2.map (fun a => String.mk a.1),
            g.2.2.map (fun a => String.mk a.2)⟩ ∧
        CTCaptures (h.getD "").data g) := by
  constructor
  · intro hnm
    cases hm : ctMatch (h.getD "").data with
    | none =>
      unfold ContentType.from_response
      rw [hm]
    | some g =>
      exact absurd (matches_of_captures _ g (ctMatch_sound _ g hm)) hnm
  · intro hm
    obtain ⟨g, hg⟩ := Option.isSome_iff_exists.mp (ctMatch_complete _ hm)
    obtain ⟨t, st, av⟩ := g
    refine ⟨(t, st, av), hg, ?_, ctMatch_sound _ _ hg⟩
    unfold ContentType.from_response
    rw [hg]

/-- C9 witness: a header with no slash parses to the `text/plain`
default, and `application/json` parses to its captured groups. -/
theorem c9_content_type_total_witness :
    ContentType.from_response (some "nomatch") =
      ⟨"text", "plain", none, none⟩ ∧
    ∃ g, ctMatch ("application/json".data) = some g ∧
      ContentType.from_response (some "application/json") =
        ⟨String.mk g.1, String.mk g.2.1,
          g.2.2.map (fun a => String.mk a.1),
          g.2.2.map (fun a => String.mk a.2)⟩ ∧
      CTCaptures ("application/json".data) g := by
  constructor
  · apply (c9_content_type_total (some "nomatch")).1
    intro hm
    have hs := ctMatch_complete _ hm
    rw [show ctMatch (((some "nomatch").getD "").data) = none by decide] at hs
    simp at hs
  · exact (c9_content_type_total (some "application/json")).2
      ⟨"application".data, "json".data, [], by decide, by decide, by decide,
        by decide, by decide, Or.inl rfl⟩

/-- C10: `WebLinkHeader.from_response` is not total at the public
interface: a response with no Link header passes the absent value (a
`None`, not a string) into `from_value`, which fails (`re.finditer`
raises a `TypeError`) rather than returning an empty link sequence; and
for a present header value an empty `WebLinkHeader` is produced exactly
when the value contains no bracketed URL token. -/
theorem c10_from_response_not_total :
    WebLinkHeader.from_response none = Except.error PyError.typeError ∧
    ∀ v : String,
      WebLinkHeader.from_response (some v) =
        Except.ok (WebLinkHeader.fromValueStr v) ∧
      ((WebLinkHeader.fromValueStr v).links = [] ↔
        ¬HasBracketToken v.data) := by
  refine ⟨rfl, fun v => ⟨rfl, ?_⟩⟩
  show (linkMatches v.data).map _ = [] ↔ _
  rw [List.map_eq_nil_iff, linkMatches_eq_nil_iff, linkScan_eq_none_iff]

/-- C4 amended: the upload step derives each asset's name (and label)
from the artifact file's base name, and skips the upload exactly when
the name-keyed lookup — which is keyed to the *last* matching asset in
the release's existing asset list, not the first — yields an asset with
a nonzero (truthy) id; a name-colliding artifact whose last matching
asset has id 0 is uploaded anyway.  The uploaded assets are exactly the
non-skipped artifacts in order. -/
theorem c4_dedup_last_match_truthy
    (up : String → AssetRequest → String → AssetResponse)
    (rf : String → String) (rel : ReleaseResponse) (arts : List String) :
    uploadAssets up rf rel arts =
      (arts.filter (fun p => !skipsUpload rel p)).map
        (fun p => up rel.upload_url ⟨pathlibName p, pathlibName p⟩ (rf p)) := by
  induction arts with
  | nil => rfl
  | cons p t ih =>
    rw [uploadAssets_cons, pyTruthy_eq_skipsUpload, ih]
    cases h : skipsUpload rel p <;> simp [List.filter_cons, h]

/-- C7: for every parsed header and relation name, `rel(name)` returns
the last link in header order whose `rel` parameter equals the name
(so when two links share a rel value the later one wins), and the
not-found sentinel exactly when no link's `rel` parameter matches. -/
theorem c7_rel_last_match (h : WebLinkHeader) (value : String) :
    h.rel value = h.relByLast value ∧
    (h.rel value = none ↔
      ∀ link ∈ h.links, ¬(pyGet link.params "rel" == some value)) := by
  constructor
  · exact reverse_find_eq_lastThat _ _
  · unfold WebLinkHeader.rel
    rw [List.find?_eq_none]
    constructor
    · intro H link hl
      exact H link (List.mem_reverse.mpr hl)
    · intro H link hl
      exact H link (List.mem_reverse.mp hl)

/-- C8: parsing the Link header value
`<A>; rel="next", <B>; rel="last", <C>; media="x;y"; anchor=z` yields
exactly three links in order of appearance with urls `A`, `B`, `C`;
`rel("next")` returns the first link and `rel("last")` the second; and
the third link's parameter mapping is `{media ↦ x;y, anchor ↦ z}` with
quotes and stray whitespace stripped from the values. -/
theorem c8_weblink_concrete :
    (WebLinkHeader.fromValueStr
        "<A>; rel=\"next\", <B>; rel=\"last\", <C>; media=\"x;y\"; anchor=z")
      = ⟨[⟨"A", [("rel", "next")]⟩, ⟨"B", [("rel", "last")]⟩,
          ⟨"C", [("media", "x;y"), ("anchor", "z")]⟩]⟩ ∧
    (WebLinkHeader.fromValueStr
        "<A>; rel=\"next\", <B>; rel=\"last\", <C>; media=\"x;y\"; anchor=z").rel
        "next" = some ⟨"A", [("rel", "next")]⟩ ∧
    (WebLinkHeader.fromValueStr
        "<A>; rel=\"next\", <B>; rel=\"last\", <C>; media=\"x;y\"; anchor=z").rel
        "last" = some ⟨"B", [("rel", "last")]⟩ := by
  refine ⟨by decide, by decide, by decide⟩

end Monocat
